import Mathlib

/-!
Verification of lzlib (lzip compression library, `src/Sources/lzlib/lzlib.c`).

Shallow embedding: C structs become Lean structures, machine integers become
`Nat` with explicit `% 2 ^ w` where overflow matters, byte buffers become
`List Nat`, and each C function is translated to a Lean function of the same
name operating on the embedded state.
-/

namespace Lzlib

/-! ## Constants (from the `enum` blocks of lzlib.c) -/

def min_dictionary_bits : Nat := 12

def min_dictionary_size : Nat := 2 ^ min_dictionary_bits

def max_dictionary_bits : Nat := 29

def max_dictionary_size : Nat := 2 ^ max_dictionary_bits

def min_match_len : Nat := 2

def max_match_len : Nat := 273

def min_match_len_limit : Nat := 5

def bit_model_move_bits : Nat := 5

def bit_model_total_bits : Nat := 11

def bit_model_total : Nat := 2 ^ bit_model_total_bits

/-- Embeds `Bm_init`: every bit-model probability starts at `bit_model_total / 2`. -/
def Bm_init : Nat := bit_model_total / 2

/-! ## CRC32 (lzlib.c lines 198-257) -/

/-- The 256-entry table `crc32[256]` from lzlib.c, transcribed verbatim. -/
def crc32_table : List Nat := [
   0x00000000, 0x77073096, 0xEE0E612C, 0x990951BA, 0x076DC419, 0x706AF48F,
   0xE963A535, 0x9E6495A3, 0x0EDB8832, 0x79DCB8A4, 0xE0D5E91E, 0x97D2D988,
   0x09B64C2B, 0x7EB17CBD, 0xE7B82D07, 0x90BF1D91, 0x1DB71064, 0x6AB020F2,
   0xF3B97148, 0x84BE41DE, 0x1ADAD47D, 0x6DDDE4EB, 0xF4D4B551, 0x83D385C7,
   0x136C9856, 0x646BA8C0, 0xFD62F97A, 0x8A65C9EC, 0x14015C4F, 0x63066CD9,
   0xFA0F3D63, 0x8D080DF5, 0x3B6E20C8, 0x4C69105E, 0xD56041E4, 0xA2677172,
   0x3C03E4D1, 0x4B04D447, 0xD20D85FD, 0xA50AB56B, 0x35B5A8FA, 0x42B2986C,
   0xDBBBC9D6, 0xACBCF940, 0x32D86CE3, 0x45DF5C75, 0xDCD60DCF, 0xABD13D59,
   0x26D930AC, 0x51DE003A, 0xC8D75180, 0xBFD06116, 0x21B4F4B5, 0x56B3C423,
   0xCFBA9599, 0xB8BDA50F, 0x2802B89E, 0x5F058808, 0xC60CD9B2, 0xB10BE924,
   0x2F6F7C87, 0x58684C11, 0xC1611DAB, 0xB6662D3D, 0x76DC4190, 0x01DB7106,
   0x98D220BC, 0xEFD5102A, 0x71B18589, 0x06B6B51F, 0x9FBFE4A5, 0xE8B8D433,
   0x7807C9A2, 0x0F00F934, 0x9609A88E, 0xE10E9818, 0x7F6A0DBB, 0x086D3D2D,
   0x91646C97, 0xE6635C01, 0x6B6B51F4, 0x1C6C6162, 0x856530D8, 0xF262004E,
   0x6C0695ED, 0x1B01A57B, 0x8208F4C1, 0xF50FC457, 0x65B0D9C6, 0x12B7E950,
   0x8BBEB8EA, 0xFCB9887C, 0x62DD1DDF, 0x15DA2D49, 0x8CD37CF3, 0xFBD44C65,
   0x4DB26158, 0x3AB551CE, 0xA3BC0074, 0xD4BB30E2, 0x4ADFA541, 0x3DD895D7,
   0xA4D1C46D, 0xD3D6F4FB, 0x4369E96A, 0x346ED9FC, 0xAD678846, 0xDA60B8D0,
   0x44042D73, 0x33031DE5, 0xAA0A4C5F, 0xDD0D7CC9, 0x5005713C, 0x270241AA,
   0xBE0B1010, 0xC90C2086, 0x5768B525, 0x206F85B3, 0xB966D409, 0xCE61E49F,
   0x5EDEF90E, 0x29D9C998, 0xB0D09822, 0xC7D7A8B4, 0x59B33D17, 0x2EB40D81,
   0xB7BD5C3B, 0xC0BA6CAD, 0xEDB88320, 0x9ABFB3B6, 0x03B6E20C, 0x74B1D29A,
   0xEAD54739, 0x9DD277AF, 0x04DB2615, 0x73DC1683, 0xE3630B12, 0x94643B84,
   0x0D6D6A3E, 0x7A6A5AA8, 0xE40ECF0B, 0x9309FF9D, 0x0A00AE27, 0x7D079EB1,
   0xF00F9344, 0x8708A3D2, 0x1E01F268, 0x6906C2FE, 0xF762575D, 0x806567CB,
   0x196C3671, 0x6E6B06E7, 0xFED41B76, 0x89D32BE0, 0x10DA7A5A, 0x67DD4ACC,
   0xF9B9DF6F, 0x8EBEEFF9, 0x17B7BE43, 0x60B08ED5, 0xD6D6A3E8, 0xA1D1937E,
   0x38D8C2C4, 0x4FDFF252, 0xD1BB67F1, 0xA6BC5767, 0x3FB506DD, 0x48B2364B,
   0xD80D2BDA, 0xAF0A1B4C, 0x36034AF6, 0x41047A60, 0xDF60EFC3, 0xA867DF55,
   0x316E8EEF, 0x4669BE79, 0xCB61B38C, 0xBC66831A, 0x256FD2A0, 0x5268E236,
   0xCC0C7795, 0xBB0B4703, 0x220216B9, 0x5505262F, 0xC5BA3BBE, 0xB2BD0B28,
   0x2BB45A92, 0x5CB36A04, 0xC2D7FFA7, 0xB5D0CF31, 0x2CD99E8B, 0x5BDEAE1D,
   0x9B64C2B0, 0xEC63F226, 0x756AA39C, 0x026D930A, 0x9C0906A9, 0xEB0E363F,
   0x72076785, 0x05005713, 0x95BF4A82, 0xE2B87A14, 0x7BB12BAE, 0x0CB61B38,
   0x92D28E9B, 0xE5D5BE0D, 0x7CDCEFB7, 0x0BDBDF21, 0x86D3D2D4, 0xF1D4E242,
   0x68DDB3F8, 0x1FDA836E, 0x81BE16CD, 0xF6B9265B, 0x6FB077E1, 0x18B74777,
   0x88085AE6, 0xFF0F6A70, 0x66063BCA, 0x11010B5C, 0x8F659EFF, 0xF862AE69,
   0x616BFFD3, 0x166CCF45, 0xA00AE278, 0xD70DD2EE, 0x4E048354, 0x3903B3C2,
   0xA7672661, 0xD06016F7, 0x4969474D, 0x3E6E77DB, 0xAED16A4A, 0xD9D65ADC,
   0x40DF0B66, 0x37D83BF0, 0xA9BCAE53, 0xDEBB9EC5, 0x47B2CF7F, 0x30B5FFE9,
   0xBDBDF21C, 0xCABAC28A, 0x53B39330, 0x24B4A3A6, 0xBAD03605, 0xCDD70693,
   0x54DE5729, 0x23D967BF, 0xB3667A2E, 0xC4614AB8, 0x5D681B02, 0x2A6F2B94,
   0xB40BBE37, 0xC30C8EA1, 0x5A05DF1B, 0x2D02EF8D
  ]

/-- Embeds `CRC32_update_byte`: `*crc = crc32[(*crc^byte)&0xFF] ^ ( *crc >> 8 )`. -/
def CRC32_update_byte (crc byte : Nat) : Nat :=
  crc32_table.getD ((crc ^^^ byte) &&& 0xFF) 0 ^^^ (crc >>> 8)

/-- The running CRC of a byte sequence, starting from `0xFFFFFFFF` as both the
encoder (`LZeb_reset`) and the decoder (`LZd_init`) do. -/
def CRC32_run (bytes : List Nat) : Nat := bytes.foldl CRC32_update_byte 0xFFFFFFFF

/-- The reported CRC32: running value xored with `0xFFFFFFFF`
(as in `LZd_crc` / `LZeb_crc`). -/
def CRC32_of (bytes : List Nat) : Nat := CRC32_run bytes ^^^ 0xFFFFFFFF

/-- Modelled from the spec: the bit step of the reflected CRC32 for
polynomial `0xEDB88320` ("if the LSB is set, shift right and xor the
polynomial, else shift right"). Used only to characterise `crc32_table`. -/
def crc_step_bit (c : Nat) : Nat :=
  if c % 2 = 1 then (c >>> 1) ^^^ 0xEDB88320 else c >>> 1

/-- Modelled from the spec: entry `n` of the reflected-polynomial table is
eight bit steps applied to `n`. -/
def crc_table_entry (n : Nat) : Nat := crc_step_bit^[8] n

/-! ## Member header: dictionary-size coding (lzlib.c lines 260-337) -/

/-- Embeds `isvalid_ds`: the dictionary size is in `[min_dictionary_size, max_dictionary_size]`. -/
def isvalid_ds (dictionary_size : Nat) : Prop :=
  min_dictionary_size ≤ dictionary_size ∧ dictionary_size ≤ max_dictionary_size

instance (n : Nat) : Decidable (isvalid_ds n) := by
  unfold isvalid_ds; infer_instance

/-- Embeds `real_bits`: number of bits needed for `value` (`while value > 0 { value >>= 1; ++bits }`). -/
def real_bits (value : Nat) : Nat :=
  if h : value = 0 then 0 else real_bits (value / 2) + 1
decreasing_by exact Nat.div_lt_self (Nat.pos_of_ne_zero h) one_lt_two

/-- Embeds `Lh_get_dictionary_size`: decode the coded dictionary-size byte
(`data[5]` of a member header). -/
def Lh_get_dictionary_size (b : Nat) : Nat :=
  let sz := 2 ^ (b &&& 0x1F)
  if min_dictionary_size < sz then sz - sz / 16 * ((b >>> 5) &&& 7) else sz

/-- The `for( i = 7; i >= 1; --i )` search inside `Lh_set_dictionary_size`:
the largest `i ≤ limit` with `base_size - i * fraction ≥ sz` (0 if none). -/
def Lh_set_fraction (sz base_size fraction : Nat) : Nat → Nat
  | 0 => 0
  | i + 1 =>
    if sz ≤ base_size - (i + 1) * fraction then i + 1
    else Lh_set_fraction sz base_size fraction i

/-- The coded byte `data[5]` produced by `Lh_set_dictionary_size` for a valid size. -/
def Lh_set_dictionary_size_byte (sz : Nat) : Nat :=
  let b := real_bits (sz - 1)
  if min_dictionary_size < sz then
    b ||| Lh_set_fraction sz (2 ^ b) (2 ^ b / 16) 7 <<< 5
  else b

/-- Embeds `Lh_set_dictionary_size`: fails (returns 0 in C) on an invalid size,
otherwise writes the coded byte. -/
def Lh_set_dictionary_size (sz : Nat) : Option Nat :=
  if isvalid_ds sz then some (Lh_set_dictionary_size_byte sz) else none

/-- Modelled from the spec: the claimed decoding formula
`ds = (1<<(b&0x1F)) - (b>>5)*(1<<(b&0x1F))/16`, applied unconditionally. -/
def spec_coded_ds_formula (b : Nat) : Nat :=
  2 ^ (b &&& 0x1F) - (b >>> 5) * (2 ^ (b &&& 0x1F) / 16)

/-! ## Member trailer accessors (lzlib.c lines 340-374) -/

/-- Embeds `Lt_get_data_crc`: little-endian 32-bit value from trailer bytes 0..3. -/
def Lt_get_data_crc (t : List Nat) : Nat :=
  [3, 2, 1, 0].foldl (fun tmp i => tmp * 256 + t.getD i 0) 0

/-- Embeds `Lt_get_data_size`: little-endian 64-bit value from trailer bytes 4..11. -/
def Lt_get_data_size (t : List Nat) : Nat :=
  [11, 10, 9, 8, 7, 6, 5, 4].foldl (fun tmp i => tmp * 256 + t.getD i 0) 0

/-- Embeds `Lt_get_member_size`: little-endian 64-bit value from trailer bytes 12..19. -/
def Lt_get_member_size (t : List Nat) : Nat :=
  [19, 18, 17, 16, 15, 14, 13, 12].foldl (fun tmp i => tmp * 256 + t.getD i 0) 0

/-! ## Circular byte buffer (lzlib.c lines 376-499) -/

/-- Embeds `struct Circular_buffer`: `buffer` holds `buffer_size` bytes,
`get`/`put` are the read/write indices. -/
structure Circular_buffer where
  buffer : List Nat
  buffer_size : Nat
  get : Nat
  put : Nat
deriving Repr, DecidableEq

/-- Embeds `Cb_empty`. -/
def Cb_empty (cb : Circular_buffer) : Bool := cb.get == cb.put

/-- Embeds `Cb_used_bytes`. -/
def Cb_used_bytes (cb : Circular_buffer) : Nat :=
  (if cb.get ≤ cb.put then 0 else cb.buffer_size) + cb.put - cb.get

/-- Embeds `Cb_free_bytes`. -/
def Cb_free_bytes (cb : Circular_buffer) : Nat :=
  (if cb.get ≤ cb.put then cb.buffer_size else 0) - cb.put + cb.get - 1

/-- Embeds `Cb_get_byte`: read the byte at `get` and advance `get` with wrap-around. -/
def Cb_get_byte (cb : Circular_buffer) : Nat × Circular_buffer :=
  let b := cb.buffer.getD cb.get 0
  (b, { cb with get := if cb.buffer_size ≤ cb.get + 1 then 0 else cb.get + 1 })

/-- Embeds `Cb_put_byte`: write a byte at `put` and advance `put` with wrap-around. -/
def Cb_put_byte (cb : Circular_buffer) (b : Nat) : Circular_buffer :=
  { cb with
    buffer := cb.buffer.set cb.put b
    put := if cb.buffer_size ≤ cb.put + 1 then 0 else cb.put + 1 }

/-- Embeds `Cb_read_data`: read up to `out_size` bytes in at most two contiguous
chunks split at the wrap point; returns the bytes read and the new buffer. -/
def Cb_read_data (cb : Circular_buffer) (out_size : Nat) : List Nat × Circular_buffer :=
  if out_size = 0 then ([], cb) else
  let first :
      List Nat × Circular_buffer :=
    if cb.put < cb.get then
      let size := min (cb.buffer_size - cb.get) out_size
      if 0 < size then
        (((cb.buffer.drop cb.get).take size),
         { cb with get := if cb.buffer_size ≤ cb.get + size then 0 else cb.get + size })
      else ([], cb)
    else ([], cb)
  let out := first.1
  let cb1 := first.2
  if cb1.get < cb1.put then
    let size2 := min (cb1.put - cb1.get) (out_size - out.length)
    if 0 < size2 then
      (out ++ (cb1.buffer.drop cb1.get).take size2, { cb1 with get := cb1.get + size2 })
    else (out, cb1)
  else (out, cb1)

/-! ## Range decoder (lzlib.c lines 501-759) -/

def rd_min_available_bytes : Nat := 10

/-- Embeds `struct Range_decoder`. `code` and `range` are 32-bit machine words,
kept as `Nat` below `2 ^ 32`. -/
structure Range_decoder where
  cb : Circular_buffer
  member_position : Nat
  code : Nat
  range : Nat
  at_stream_end : Bool
  reload_pending : Bool
deriving Repr, DecidableEq

/-- Embeds `Rd_finished`. -/
def Rd_finished (rdec : Range_decoder) : Bool :=
  rdec.at_stream_end && Cb_empty rdec.cb

/-- Embeds `Rd_enough_available_bytes`. -/
def Rd_enough_available_bytes (rdec : Range_decoder) : Bool :=
  rd_min_available_bytes ≤ Cb_used_bytes rdec.cb

/-- Embeds `Rd_available_bytes`. -/
def Rd_available_bytes (rdec : Range_decoder) : Nat := Cb_used_bytes rdec.cb

/-- Embeds `Rd_get_byte`: returns `0xFF` past the end of stream, otherwise pops a
byte from the buffer, counting it into `member_position`. -/
def Rd_get_byte (rdec : Range_decoder) : Nat × Range_decoder :=
  if Rd_finished rdec then (0xFF, rdec)
  else
    let r := Cb_get_byte rdec.cb
    (r.1, { rdec with cb := r.2, member_position := rdec.member_position + 1 })

/-- Embeds `Rd_read_data`: bulk read advancing `member_position`. -/
def Rd_read_data (rdec : Range_decoder) (size : Nat) : List Nat × Range_decoder :=
  let r := Cb_read_data rdec.cb size
  (r.1, { rdec with cb := r.2, member_position := rdec.member_position + r.1.length })

/-- Embeds `Rd_try_reload`: when a reload is pending and 5 bytes are available,
consume them into `code` and reset `range`; returns whether no reload is
still pending. -/
def Rd_try_reload (rdec : Range_decoder) : Bool × Range_decoder :=
  if rdec.reload_pending ∧ 5 ≤ Rd_available_bytes rdec then
    let rdec0 := { rdec with reload_pending := false, code := 0 }
    let rdec5 := (List.range 5).foldl
      (fun s _ =>
        let r := Rd_get_byte s
        { r.2 with code := ((r.2.code <<< 8) ||| r.1) % 2 ^ 32 }) rdec0
    (true, { rdec5 with range := 0xFFFFFFFF, code := rdec5.code &&& 0xFFFFFFFF })
  else (!rdec.reload_pending, rdec)

/-- Embeds `Rd_normalize`: if `range ≤ 0x00FFFFFF`, shift `range` left 8 and pull
one byte into `code`. -/
def Rd_normalize (rdec : Range_decoder) : Range_decoder :=
  if rdec.range ≤ 0x00FFFFFF then
    let r := Rd_get_byte rdec
    { r.2 with range := (rdec.range <<< 8) % 2 ^ 32,
               code := ((rdec.code <<< 8) ||| r.1) % 2 ^ 32 }
  else rdec

/-- One iteration of the fixed-probability loop in `Rd_decode`:
normalize, halve the range, compare `code` against it. -/
def Rd_decode_step (rdec : Range_decoder) (symbol : Nat) : Range_decoder × Nat :=
  let s := Rd_normalize rdec
  let s := { s with range := s.range >>> 1 }
  let bit := if s.range ≤ s.code then 1 else 0
  ({ s with code := s.code - (if bit = 1 then s.range else 0) },
   symbol <<< 1 ||| bit)

/-- Embeds `Rd_decode`: decode `num_bits` fixed-probability bits. -/
def Rd_decode (rdec : Range_decoder) (num_bits : Nat) : Range_decoder × Nat :=
  (List.range num_bits).foldl (fun p _ => Rd_decode_step p.1 p.2) (rdec, 0)

/-- Embeds `Rd_decode_bit`: decode one bit with adaptive probability `prob`;
returns the new decoder state, the updated probability, and the bit. -/
def Rd_decode_bit (rdec : Range_decoder) (prob : Nat) : Range_decoder × Nat × Nat :=
  let s := Rd_normalize rdec
  let bound := (s.range >>> bit_model_total_bits) * prob
  if s.code < bound then
    ({ s with range := bound },
     prob + (bit_model_total - prob) >>> bit_model_move_bits, 0)
  else
    ({ s with code := s.code - bound, range := s.range - bound },
     prob - prob >>> bit_model_move_bits, 1)

/-! ## LZ decoder (lzlib.c lines 762-1031)

The embedded `LZ_decoder` carries the fields used by trailer verification
and by the marker-dispatch block of `LZd_decode_member`; the adaptive
probability arrays (`bm_literal`, `bm_match`, ...) are not consulted by
those paths and are threaded separately where a probability is needed. -/

structure LZ_decoder where
  cb : Circular_buffer
  partial_data_pos : Nat
  rdec : Range_decoder
  dictionary_size : Nat
  crc : Nat
  member_finished : Bool
  verify_trailer_pending : Bool
  pos_wrapped : Bool
  rep0 : Nat
  rep1 : Nat
  rep2 : Nat
  rep3 : Nat
  state : Nat
deriving Repr, DecidableEq

/-- Embeds `LZd_crc`: the reported CRC is the running value xored with `0xFFFFFFFF`. -/
def LZd_crc (d : LZ_decoder) : Nat := d.crc ^^^ 0xFFFFFFFF

/-- Embeds `LZd_data_position`. -/
def LZd_data_position (d : LZ_decoder) : Nat := d.partial_data_pos + d.cb.put

/-- Embeds `LZd_try_verify_trailer` (lzlib.c lines 899-912): read the 20-byte
trailer and compare CRC, data size and member size. Returns the
`LZd_decode_member` result code and the new state. -/
def LZd_try_verify_trailer (d : LZ_decoder) : Nat × LZ_decoder :=
  if Rd_available_bytes d.rdec < 20 then
    if !d.rdec.at_stream_end then (0, d) else (2, d)
  else
    let d1 := { d with verify_trailer_pending := false, member_finished := true }
    let r := Rd_read_data d1.rdec 20
    let d2 := { d1 with rdec := r.2 }
    if r.1.length = 20 ∧
       Lt_get_data_crc r.1 = LZd_crc d2 ∧
       Lt_get_data_size r.1 = LZd_data_position d2 ∧
       Lt_get_member_size r.1 = d2.rdec.member_position then (0, d2)
    else (3, d2)

/-- Outcome of one piece of the `LZd_decode_member` loop body:
`ret` leaves the function with a result code, `contLoop` executes
`continue`, `breakLoop` executes `break` (after which the function
returns 2). -/
inductive Member_step where
  | ret (retval : Nat) (d : LZ_decoder)
  | contLoop (d : LZ_decoder)
  | breakLoop (d : LZ_decoder)
deriving Repr, DecidableEq

/-- The marker-dispatch block of `LZd_decode_member` (lzlib.c lines
1002-1020), entered when a normal match decoded `distance == 0xFFFFFFFF`:
normalize, then dispatch on the decoded length. -/
def LZd_decode_member_marker (d : LZ_decoder) (len : Nat) : Member_step :=
  let d := { d with rdec := Rd_normalize d.rdec }
  if len = min_match_len then
    let d := { d with verify_trailer_pending := true }
    let r := LZd_try_verify_trailer d
    .ret r.1 r.2
  else if len = min_match_len + 1 then
    let d := { d with rdec := { d.rdec with reload_pending := true } }
    let r := Rd_try_reload d.rdec
    let d := { d with rdec := r.2 }
    if r.1 then .contLoop d
    else if !d.rdec.at_stream_end then .ret 0 d else .breakLoop d
  else .ret 4 d

/-- Embeds `enum LZ_Errno` (lzlib.c lines 27-29). -/
inductive LZ_Errno where
  | ok | bad_argument | mem_error | sequence_error
  | header_error | unexpected_eof | data_error | library_error
deriving Repr, DecidableEq

/-- The error mapping of `LZ_decompress_read` (lzlib.c lines 3368-3377)
for a nonzero `LZd_decode_member` result. -/
def LZ_decompress_read_errno (result : Nat) : LZ_Errno :=
  if result = 2 then .unexpected_eof
  else if result = 5 then .library_error
  else .data_error

/-! ## Range encoder (lzlib.c lines 1330-1438) -/

/-- Embeds `struct Range_encoder`. `low` is a 64-bit word (holding a 33-bit value),
`range` a 32-bit word; `header` is kept as its sixth byte only (the first
five are the fixed magic and version). -/
structure Range_encoder where
  cb : Circular_buffer
  min_free_bytes : Nat
  low : Nat
  partial_member_pos : Nat
  range : Nat
  ff_count : Nat
  cache : Nat
  header5 : Nat
deriving Repr, DecidableEq

/-- Embeds `Re_shift_low`. -/
def Re_shift_low (renc : Range_encoder) : Range_encoder :=
  if renc.low >>> 24 ≠ 0xFF then
    let carry : Nat := if 0xFFFFFFFF < renc.low then 1 else 0
    let cb := Cb_put_byte renc.cb ((renc.cache + carry) % 256)
    let cb := (List.range renc.ff_count).foldl
      (fun cb _ => Cb_put_byte cb ((0xFF + carry) % 256)) cb
    { renc with cb, ff_count := 0, cache := (renc.low >>> 24) % 256,
                low := (renc.low &&& 0x00FFFFFF) <<< 8 }
  else
    { renc with ff_count := renc.ff_count + 1,
                low := (renc.low &&& 0x00FFFFFF) <<< 8 }

/-- Embeds `Re_member_position`. -/
def Re_member_position (renc : Range_encoder) : Nat :=
  renc.partial_member_pos + Cb_used_bytes renc.cb + renc.ff_count

/-- Embeds `Re_encode_bit`: encode one bit with adaptive probability `prob`;
returns the new encoder state and the updated probability. -/
def Re_encode_bit (renc : Range_encoder) (prob : Nat) (bit : Bool) :
    Range_encoder × Nat :=
  let bound := (renc.range >>> bit_model_total_bits) * prob
  let (renc, prob) :=
    if !bit then
      ({ renc with range := bound },
       prob + (bit_model_total - prob) >>> bit_model_move_bits)
    else
      ({ renc with low := (renc.low + bound) % 2 ^ 64, range := renc.range - bound },
       prob - prob >>> bit_model_move_bits)
  if renc.range ≤ 0x00FFFFFF then
    (Re_shift_low { renc with range := (renc.range <<< 8) % 2 ^ 32 }, prob)
  else (renc, prob)

/-- One iteration of the fixed-probability loop in `Re_encode`:
halve the range, add it into `low` if the bit is set, then normalize. -/
def Re_encode_step (renc : Range_encoder) (bit : Bool) : Range_encoder :=
  let renc := { renc with range := renc.range >>> 1 }
  let renc :=
    if bit then { renc with low := (renc.low + renc.range) % 2 ^ 64 } else renc
  if renc.range ≤ 0x00FFFFFF then
    Re_shift_low { renc with range := (renc.range <<< 8) % 2 ^ 32 }
  else renc

/-- Embeds `Re_encode`: encode `num_bits` fixed-probability bits of `symbol`,
most significant first. -/
def Re_encode (renc : Range_encoder) (symbol num_bits : Nat) : Range_encoder :=
  (List.range num_bits).foldl
    (fun r i => Re_encode_step r (symbol >>> (num_bits - 1 - i) &&& 1 = 1)) renc

/-- Embeds `Re_flush`: five `shift_low`s, then reset `low`, `range`, `ff_count`, `cache`. -/
def Re_flush (renc : Range_encoder) : Range_encoder :=
  let renc := (List.range 5).foldl (fun r _ => Re_shift_low r) renc
  { renc with low := 0, range := 0xFFFFFFFF, ff_count := 0, cache := 0 }

/-! ## Shared adaptive probability update (spec view of C3) -/

/-- Modelled from the spec: the adaptive update of an 11-bit probability on
an observed bit `b`: `p += (2048 - p) >> 5` when `b = 0`, `p -= p >> 5`
when `b = 1`. -/
def bm_update (p : Nat) (b : Bool) : Nat :=
  if b then p - p >>> 5 else p + (2048 - p) >>> 5

/-! ## Initial coder states (lzlib.c `Rd_init`, `Re_reset`) -/

/-- Embeds `Rd_init`: fresh range decoder over an empty 65546+1-byte circular buffer. -/
def Rd_init : Range_decoder :=
  { cb := { buffer := List.replicate (65536 + rd_min_available_bytes + 1) 0,
            buffer_size := 65536 + rd_min_available_bytes + 1, get := 0, put := 0 }
    member_position := 0, code := 0, range := 0xFFFFFFFF,
    at_stream_end := false, reload_pending := false }

/-- Embeds `Re_reset`: reset the range encoder and emit the 6-byte member header
(magic `4C 5A 49 50`, version 1, coded dictionary size). -/
def Re_reset (renc : Range_encoder) (dictionary_size : Nat) : Range_encoder :=
  let header5 := (Lh_set_dictionary_size dictionary_size).getD renc.header5
  let cb := { renc.cb with get := 0, put := 0 }
  let cb := [0x4C, 0x5A, 0x49, 0x50, 1, header5].foldl Cb_put_byte cb
  { renc with cb, low := 0, partial_member_pos := 0, range := 0xFFFFFFFF,
              ff_count := 0, cache := 0, header5 }

/-! ## Matchfinder slice used by `LZ_compress_finish` (lzlib.c lines 1224-1721) -/

/-- The fields of `struct Matchfinder_base` read or written on the
`LZ_compress_finish` path (the hash-table fields updated by
`Mb_adjust_array` are not modelled). -/
structure Matchfinder_base where
  partial_data_pos : Nat
  pos : Nat
  stream_pos : Nat
  dictionary_size : Nat
  buffer_size : Nat
  pos_limit : Nat
  at_stream_end : Bool
  sync_flush_pending : Bool
deriving Repr, DecidableEq

/-- Embeds `Mb_data_position`. -/
def Mb_data_position (mb : Matchfinder_base) : Nat := mb.partial_data_pos + mb.pos

/-- Embeds `Mb_finish`. -/
def Mb_finish (mb : Matchfinder_base) : Matchfinder_base :=
  { mb with at_stream_end := true, sync_flush_pending := false }

/-- Embeds `Mb_adjust_dictionary_size` (lzlib.c lines 1713-1721): if fewer bytes
were received than the dictionary size, shrink it to
`max(min_dictionary_size, stream_pos)`. -/
def Mb_adjust_dictionary_size (mb : Matchfinder_base) : Matchfinder_base :=
  if mb.stream_pos < mb.dictionary_size then
    { mb with dictionary_size := max min_dictionary_size mb.stream_pos,
              pos_limit := mb.buffer_size }
  else mb

/-! ## Facade (lzlib.c lines 3026-3090) -/

/-- Which encoder `LZ_compress_open` selects. -/
inductive Encoder_mode where
  | fast | optimal
deriving Repr, DecidableEq

/-- The observable outcome of `LZ_compress_open` (allocation is assumed to
succeed, so `LZ_mem_error` does not arise in the model). -/
structure Open_result where
  lz_errno : LZ_Errno
  fatal : Bool
  mode : Option Encoder_mode
deriving Repr, DecidableEq

/-- Conversion of a C `int` argument to `unsigned` (two's complement). -/
def to_uint32 (i : Int) : Nat := (i % 2 ^ 32).toNat

/-- Embeds `LZ_compress_open` (lzlib.c lines 3026-3061): validate the arguments,
then pick the fast encoder for `(65535, 16)` and the optimal encoder
otherwise. -/
def LZ_compress_open (dictionary_size match_len_limit : Int)
    (member_size : Nat) : Open_result :=
  if (Lh_set_dictionary_size (to_uint32 dictionary_size)).isNone ∨
      match_len_limit < (min_match_len_limit : Int) ∨
      (max_match_len : Int) < match_len_limit ∨
      member_size < min_dictionary_size then
    { lz_errno := .bad_argument, fatal := true, mode := none }
  else if dictionary_size = 65535 ∧ match_len_limit = 16 then
    { lz_errno := .ok, fatal := false, mode := some .fast }
  else
    { lz_errno := .ok, fatal := false, mode := some .optimal }

/-- The encoder state seen by `LZ_compress_finish`. -/
structure Encoder_state where
  mb : Matchfinder_base
  renc : Range_encoder
deriving Repr, DecidableEq

/-- Embeds `LZ_compress_finish` (lzlib.c lines 3075-3090): mark the input finished;
if nothing has been encoded yet and only the header was emitted, shrink the
dictionary size and patch the coded byte in the already-emitted header. -/
def LZ_compress_finish (e : Encoder_state) : Encoder_state :=
  let mb := Mb_finish e.mb
  if Mb_data_position mb = 0 ∧ Re_member_position e.renc = 6 then
    let mb := Mb_adjust_dictionary_size mb
    let header5 := (Lh_set_dictionary_size mb.dictionary_size).getD e.renc.header5
    { mb := mb,
      renc := { e.renc with
                header5 := header5,
                cb := { e.renc.cb with buffer := e.renc.cb.buffer.set 5 header5 } } }
  else { e with mb }

/-! ## Invariant definitions and concrete states for witnesses -/

/-- Well-formedness of a circular buffer: indices in range, backing list of
the advertised size. -/
def Cb_wf (cb : Circular_buffer) : Prop :=
  cb.buffer.length = cb.buffer_size ∧ cb.get < cb.buffer_size ∧
    cb.put < cb.buffer_size

set_option maxHeartbeats 1000000 in
/-- Range-decoder arithmetic invariant: `range` is a 32-bit value at least
`2 ^ 16`, so the next normalization brings it above `0x00FFFFFF`. -/
def Rd_range_inv (rdec : Range_decoder) : Prop :=
  2 ^ 16 ≤ rdec.range ∧ rdec.range < 2 ^ 32

/-- Range-encoder arithmetic invariant: `range` is a 32-bit value above
`0x00FFFFFF` (the encoder normalizes after each operation). -/
def Re_range_inv (renc : Range_encoder) : Prop :=
  0xFFFFFF < renc.range ∧ renc.range < 2 ^ 32

/-- Small concrete coder states used to instantiate theorems with hypotheses. -/
def cb_w : Circular_buffer :=
  { buffer := List.replicate 12 0, buffer_size := 12, get := 0, put := 0 }

def rdec_w : Range_decoder :=
  { cb := cb_w, member_position := 0, code := 0, range := 0xFFFFFFFF,
    at_stream_end := false, reload_pending := false }

def renc_w : Range_encoder :=
  { cb := cb_w, min_free_bytes := 0, low := 0, partial_member_pos := 0,
    range := 0xFFFFFFFF, ff_count := 0, cache := 0, header5 := 12 }

/-- Concrete states used to instantiate theorems with hypotheses. -/
def trailer_w : List Nat :=
  [0x8B, 0x9E, 0xD9, 0xD3, 1, 0, 0, 0, 0, 0, 0, 0, 26, 0, 0, 0, 0, 0, 0, 0]

def rdec_tw : Range_decoder :=
  { cb := { buffer := trailer_w ++ [0], buffer_size := 21, get := 0, put := 20 }
    member_position := 6, code := 0, range := 0xFFFFFFFF
    at_stream_end := true, reload_pending := false }

def d_w : LZ_decoder :=
  { cb := { buffer := List.replicate 8 0, buffer_size := 8, get := 0, put := 0 }
    partial_data_pos := 1, rdec := rdec_tw, dictionary_size := 4096
    crc := 0xD3D99E8B ^^^ 0xFFFFFFFF
    member_finished := false, verify_trailer_pending := true, pos_wrapped := false
    rep0 := 0, rep1 := 0, rep2 := 0, rep3 := 0, state := 0 }

def mb_cx : Matchfinder_base :=
  { partial_data_pos := 0, pos := 0, stream_pos := 5000
    dictionary_size := 65536, buffer_size := 1 <<< 17, pos_limit := 1 <<< 17
    at_stream_end := false, sync_flush_pending := false }

def renc_cx : Range_encoder :=
  { cb := { buffer := [0x4C, 0x5A, 0x49, 0x50, 1, 0x10, 0], buffer_size := 7,
            get := 0, put := 6 }
    min_free_bytes := 0, low := 0, partial_member_pos := 0, range := 0xFFFFFFFF
    ff_count := 0, cache := 0, header5 := 0x10 }

def e_cx : Encoder_state := { mb := mb_cx, renc := renc_cx }

def e_cx2 : Encoder_state :=
  { mb := { mb_cx with dictionary_size := 4096 }, renc := renc_cx }

lemma ite_xor_testBit (c : Bool) (P i : Nat) :
    (if c then P else 0).testBit i = (c && P.testBit i) := by
  cases c <;> simp

lemma crc_step_bit_eq (x : Nat) :
    crc_step_bit x = (x >>> 1) ^^^ (if x.testBit 0 then 0xEDB88320 else 0) := by
  unfold crc_step_bit
  rcases Nat.mod_two_eq_zero_or_one x with h | h <;>
    simp [h, Nat.testBit_zero]

lemma crc_step_bit_xor (a b : Nat) :
    crc_step_bit (a ^^^ b) = crc_step_bit a ^^^ crc_step_bit b := by
  apply Nat.eq_of_testBit_eq
  intro i
  simp only [crc_step_bit_eq, Nat.testBit_xor, Nat.testBit_shiftRight,
    ite_xor_testBit, Nat.testBit_xor]
  cases a.testBit (1 + i) <;> cases b.testBit (1 + i) <;>
    cases a.testBit 0 <;> cases b.testBit 0 <;>
    cases (0xEDB88320).testBit i <;> rfl

lemma crc_step_iter_xor (n a b : Nat) :
    crc_step_bit^[n] (a ^^^ b) = crc_step_bit^[n] a ^^^ crc_step_bit^[n] b := by
  induction n generalizing a b with
  | zero => rfl
  | succ k ih =>
    rw [Function.iterate_succ_apply, Function.iterate_succ_apply,
      Function.iterate_succ_apply, crc_step_bit_xor, ih]

lemma crc_step_shiftLeft (h k : Nat) :
    crc_step_bit (h <<< (k + 1)) = h <<< k := by
  have e1 : h <<< (k + 1) = h <<< k * 2 := by
    rw [Nat.shiftLeft_eq, Nat.shiftLeft_eq, pow_succ]; ring
  have e2 : h <<< k * 2 % 2 = 0 := Nat.mul_mod_left _ 2
  rw [e1]
  unfold crc_step_bit
  rw [e2]
  simp only [OfNat.ofNat_ne_one, if_false, Nat.zero_ne_one]
  rw [Nat.shiftRight_eq_div_pow, pow_one, Nat.mul_div_cancel _ (by norm_num)]

lemma crc_step_iter_shiftLeft (h : Nat) :
    crc_step_bit^[8] (h <<< 8) = h := by
  have g : ∀ k h : Nat, crc_step_bit^[k] (h <<< k) = h := by
    intro k
    induction k with
    | zero => intro h; simp [Nat.shiftLeft_zero]
    | succ m ih =>
      intro h
      rw [Function.iterate_succ_apply, crc_step_shiftLeft, ih]
  exact g 8 h

lemma nat_low_high_decomp (x : Nat) :
    x = (x &&& 255) ^^^ ((x >>> 8) <<< 8) := by
  apply Nat.eq_of_testBit_eq
  intro i
  simp only [Nat.testBit_xor, Nat.testBit_and, Nat.testBit_shiftLeft,
    Nat.testBit_shiftRight]
  have h255 : (255).testBit i = decide (i < 8) := by
    have := Nat.testBit_two_pow_sub_one 8 i
    norm_num at this ⊢; exact this
  rw [h255]
  by_cases hi : i < 8
  · simp [hi, Nat.not_le.mpr hi]
  · simp only [decide_eq_false hi, Bool.and_false,
      decide_eq_true (Nat.not_lt.mp hi), Bool.true_and]
    have : 8 + (i - 8) = i := by omega
    rw [this]
    simp

set_option maxRecDepth 8192 in
lemma crc32_table_getD (r : Nat) (hr : r < 256) :
    crc32_table.getD r 0 = crc_step_bit^[8] r := by
  have htab : crc32_table = (List.range 256).map crc_table_entry := by decide
  rw [htab, List.getD_eq_getElem?_getD, List.getElem?_map]
  rw [List.getElem?_range hr]
  rfl

lemma shiftRight_xor_small (c b : Nat) (hb : b < 256) :
    (c ^^^ b) >>> 8 = c >>> 8 := by
  apply Nat.eq_of_testBit_eq
  intro i
  simp only [Nat.testBit_shiftRight, Nat.testBit_xor]
  have : b.testBit (8 + i) = false := by
    apply Nat.testBit_eq_false_of_lt
    calc b < 256 := hb
    _ ≤ 2 ^ (8 + i) := by
      have : (256 : Nat) = 2 ^ 8 := by norm_num
      rw [this]
      exact Nat.pow_le_pow_right (by norm_num) (by omega)
  rw [this]
  simp

lemma CRC32_update_byte_eq_steps (c b : Nat) (hb : b < 256) :
    CRC32_update_byte c b = crc_step_bit^[8] (c ^^^ b) := by
  unfold CRC32_update_byte
  conv_rhs => rw [nat_low_high_decomp (c ^^^ b)]
  rw [crc_step_iter_xor, crc_step_iter_shiftLeft, shiftRight_xor_small c b hb]
  rw [crc32_table_getD _ (by
    have := Nat.and_le_right (n := c ^^^ b) (m := 255)
    omega)]

set_option maxRecDepth 8192 in
/-- C8: the running CRC starts at `0xFFFFFFFF`; the 256-entry table is the
table of the reflected polynomial `0xEDB88320` (entry `n` is eight bit steps
applied to `n`), so the byte update `c = T[(c^b)&0xFF] ^ (c>>8)` equals eight
bit steps applied to `c ^^^ b`; the reported CRC is the running value xored
with `0xFFFFFFFF`; and the CRC32 of the single byte 0x41 is `0xD3D99E8B`. -/
theorem c8_crc32_model :
    crc32_table = (List.range 256).map crc_table_entry ∧
    (∀ c b : Nat, b < 256 →
      CRC32_update_byte c b = crc_step_bit^[8] (c ^^^ b)) ∧
    CRC32_run [] = 0xFFFFFFFF ∧
    (∀ bs : List Nat, CRC32_of bs = CRC32_run bs ^^^ 0xFFFFFFFF) ∧
    CRC32_of [0x41] = 0xD3D99E8B := by
  refine ⟨by decide, fun c b hb => CRC32_update_byte_eq_steps c b hb, rfl, fun bs => rfl, by decide⟩

theorem c8_crc32_model_witness :
    CRC32_update_byte 0xFFFFFFFF 0x41 = crc_step_bit^[8] (0xFFFFFFFF ^^^ 0x41) :=
  c8_crc32_model.2.1 0xFFFFFFFF 0x41 (by decide)

/-- C2 counterexample: for coded byte `0x2C` (low five bits 12, high three
bits 1) the code returns 4096, while the claimed formula
`(1<<(b&0x1F)) - (b>>5)*(1<<(b&0x1F))/16` gives 3840: the fractional
reduction is NOT applied for every base value. -/
theorem c2_counterexample :
    Lh_get_dictionary_size 0x2C = 4096 ∧ spec_coded_ds_formula 0x2C = 3840 ∧
    Lh_get_dictionary_size 0x2C ≠ spec_coded_ds_formula 0x2C := by decide

/-- C2 (amended): the dictionary size decoded from coded byte `b` equals the
claimed formula `(1<<(b&0x1F)) - (b>>5)*(1<<(b&0x1F))/16` only when the base
`1<<(b&0x1F)` exceeds the 4 KiB minimum dictionary size; for bases of at most
4096 the high three bits are ignored and the base is returned unreduced. -/
theorem c2_amended (b : Nat) (hb : b ≤ 255) :
    Lh_get_dictionary_size b =
      if 4096 < 2 ^ (b &&& 0x1F) then spec_coded_ds_formula b
      else 2 ^ (b &&& 0x1F) := by
  have h1 : b >>> 5 < 8 := by
    rw [Nat.shiftRight_eq_div_pow]; omega
  have h7 : (b >>> 5) &&& 7 = b >>> 5 := by
    have h2 := Nat.and_pow_two_sub_one_eq_mod (b >>> 5) 3
    norm_num at h2
    rw [h2, Nat.mod_eq_of_lt h1]
  simp only [Lh_get_dictionary_size, spec_coded_ds_formula,
    min_dictionary_size, min_dictionary_bits, h7]
  norm_num
  split <;> [rw [Nat.mul_comm]; rfl]

theorem c2_amended_witness :
    Lh_get_dictionary_size 0x2C =
      if 4096 < 2 ^ (0x2C &&& 0x1F) then spec_coded_ds_formula 0x2C
      else 2 ^ (0x2C &&& 0x1F) :=
  c2_amended 0x2C (by decide)

/-- C3: one adaptive update replaces an 11-bit probability `p` by
`p + ((2048 - p) >> 5)` on bit 0 and by `p - (p >> 5)` on bit 1, and the
encoder update in `Re_encode_bit` and the decoder update in `Rd_decode_bit`
are the same function `bm_update` of `(p, bit)`. -/
theorem c3_adaptive_update (rdec : Range_decoder) (renc : Range_encoder)
    (p : Nat) (b : Bool) :
    bm_update p false = p + (2048 - p) >>> 5 ∧
    bm_update p true = p - p >>> 5 ∧
    (Re_encode_bit renc p b).2 = bm_update p b ∧
    (Rd_decode_bit rdec p).2.1 =
      bm_update p (decide ((Rd_decode_bit rdec p).2.2 = 1)) := by
  refine ⟨rfl, rfl, ?_, ?_⟩
  · unfold Re_encode_bit bm_update bit_model_total bit_model_total_bits
      bit_model_move_bits
    cases b <;> simp <;> split <;> rfl
  · unfold Rd_decode_bit bm_update bit_model_total bit_model_total_bits
      bit_model_move_bits
    by_cases h : (Rd_normalize rdec).code < (Rd_normalize rdec).range >>> 11 * p <;>
      simp [h]

lemma bm_update_mem (p : Nat) (b : Bool) (h1 : 31 ≤ p) (h2 : p ≤ 2017) :
    31 ≤ bm_update p b ∧ bm_update p b ≤ 2017 := by
  unfold bm_update
  cases b <;> simp only [Nat.shiftRight_eq_div_pow] <;> norm_num <;> omega

/-- C10: a bit-model probability starts at 1024 and, under any sequence of
the two adaptive updates, stays within `[31, 2017]` (strictly between 0 and
2048); consequently the bound `(range >> 11) * probability` is never 0 and
never reaches the full range whenever `range > 0x00FFFFFF`. -/
theorem c10_bit_model_interval :
    Bm_init = 1024 ∧
    (∀ bs : List Bool,
      31 ≤ bs.foldl bm_update Bm_init ∧ bs.foldl bm_update Bm_init ≤ 2017) ∧
    (∀ r p : Nat, 0xFFFFFF < r → 31 ≤ p → p ≤ 2017 →
      1 ≤ (r >>> 11) * p ∧ (r >>> 11) * p < r) := by
  refine ⟨rfl, ?_, ?_⟩
  · intro bs
    have g : ∀ q, 31 ≤ q → q ≤ 2017 →
        31 ≤ bs.foldl bm_update q ∧ bs.foldl bm_update q ≤ 2017 := by
      induction bs with
      | nil => intro q h1 h2; exact ⟨h1, h2⟩
      | cons x xs ih =>
        intro q h1 h2
        simp only [List.foldl_cons]
        exact ih _ (bm_update_mem q x h1 h2).1 (bm_update_mem q x h1 h2).2
    exact g Bm_init (by decide) (by decide)
  · intro r p hr h1 h2
    rw [Nat.shiftRight_eq_div_pow]
    norm_num
    refine ⟨?_, ?_⟩
    · have hq : 1 ≤ r / 2048 := by omega
      calc 1 = 1 * 1 := by norm_num
      _ ≤ r / 2048 * p := Nat.mul_le_mul hq (by omega)
    · have h3 : r / 2048 * p ≤ r / 2048 * 2017 := Nat.mul_le_mul_left _ h2
      have h4 : r / 2048 * 2017 < r := by omega
      omega

theorem c10_bit_model_interval_witness :
    (31 ≤ [true, false, true].foldl bm_update Bm_init ∧
      [true, false, true].foldl bm_update Bm_init ≤ 2017) ∧
    (1 ≤ (0x1000000 >>> 11) * 1024 ∧ (0x1000000 >>> 11) * 1024 < 0x1000000) :=
  ⟨c10_bit_model_interval.2.1 [true, false, true],
   c10_bit_model_interval.2.2 0x1000000 1024 (by decide) (by decide) (by decide)⟩

lemma lh_set_isNone_iff (ds : Int) (h1 : -(2 ^ 31) ≤ ds) (h2 : ds < 2 ^ 31) :
    ((Lh_set_dictionary_size (to_uint32 ds)).isNone = true) ↔
      (ds < 4096 ∨ 2 ^ 29 < ds) := by
  have e31 : ((2 : Int) ^ 31) = 2147483648 := by norm_num
  have e29 : ((2 : Int) ^ 29) = 536870912 := by norm_num
  rw [e31] at h1 h2
  rw [e29]
  unfold Lh_set_dictionary_size to_uint32
  split_ifs with h
  · simp only [Option.isNone_some, Bool.false_eq_true, false_iff]
    unfold isvalid_ds min_dictionary_size max_dictionary_size
      min_dictionary_bits max_dictionary_bits at h
    norm_num at h
    omega
  · simp only [Option.isNone_none, eq_self_iff_true, true_iff]
    unfold isvalid_ds min_dictionary_size max_dictionary_size
      min_dictionary_bits max_dictionary_bits at h
    norm_num at h
    omega

/-- C6: `LZ_compress_open` sets `LZ_bad_argument` exactly when the
dictionary size lies outside `[4096, 1 << 29]`, the match length limit lies
outside `[5, 273]`, or the member size is below 4096; for valid arguments it
selects the fast encoder iff `dictionary_size = 65535 ∧ match_len_limit = 16`
and otherwise the optimal encoder. -/
theorem c6_compress_open (ds mll : Int) (msz : Nat)
    (h1 : -(2 ^ 31) ≤ ds) (h2 : ds < 2 ^ 31) :
    ((LZ_compress_open ds mll msz).lz_errno = .bad_argument ↔
      (ds < 4096 ∨ 2 ^ 29 < ds ∨ mll < 5 ∨ 273 < mll ∨ msz < 4096)) ∧
    ((LZ_compress_open ds mll msz).lz_errno ≠ .bad_argument →
      (LZ_compress_open ds mll msz).lz_errno = .ok ∧
      ((LZ_compress_open ds mll msz).mode = some .fast ↔ ds = 65535 ∧ mll = 16) ∧
      ((LZ_compress_open ds mll msz).mode = some .fast ∨
        (LZ_compress_open ds mll msz).mode = some .optimal)) := by
  have hiff : ((Lh_set_dictionary_size (to_uint32 ds)).isNone = true ∨
      mll < (min_match_len_limit : Int) ∨ (max_match_len : Int) < mll ∨
      msz < min_dictionary_size) ↔
      (ds < 4096 ∨ 2 ^ 29 < ds ∨ mll < 5 ∨ 273 < mll ∨ msz < 4096) := by
    rw [lh_set_isNone_iff ds h1 h2]
    unfold min_match_len_limit max_match_len min_dictionary_size
      min_dictionary_bits
    norm_num
    tauto
  unfold LZ_compress_open
  by_cases hC : ((Lh_set_dictionary_size (to_uint32 ds)).isNone = true ∨
      mll < (min_match_len_limit : Int) ∨ (max_match_len : Int) < mll ∨
      msz < min_dictionary_size)
  · rw [if_pos hC]
    exact ⟨⟨fun _ => hiff.mp hC, fun _ => rfl⟩, fun hbad => absurd rfl hbad⟩
  · rw [if_neg hC]
    by_cases hf : ds = 65535 ∧ mll = 16
    · rw [if_pos hf]
      exact ⟨⟨fun he => absurd he (by decide), fun hx => absurd (hiff.mpr hx) hC⟩,
        fun _ => ⟨rfl, ⟨fun _ => hf, fun _ => rfl⟩, Or.inl rfl⟩⟩
    · rw [if_neg hf]
      exact ⟨⟨fun he => absurd he (by decide), fun hx => absurd (hiff.mpr hx) hC⟩,
        fun _ => ⟨rfl, ⟨fun he => absurd he (by decide), fun hx => absurd hx hf⟩,
          Or.inr rfl⟩⟩

theorem c6_compress_open_witness :
    ((LZ_compress_open 65535 16 4096).lz_errno = .bad_argument ↔
      ((65535 : Int) < 4096 ∨ 2 ^ 29 < (65535 : Int) ∨ (16 : Int) < 5 ∨
        273 < (16 : Int) ∨ (4096 : Nat) < 4096)) ∧
    ((LZ_compress_open 65535 16 4096).lz_errno ≠ .bad_argument →
      (LZ_compress_open 65535 16 4096).lz_errno = .ok ∧
      ((LZ_compress_open 65535 16 4096).mode = some .fast ↔
        (65535 : Int) = 65535 ∧ (16 : Int) = 16) ∧
      ((LZ_compress_open 65535 16 4096).mode = some .fast ∨
        (LZ_compress_open 65535 16 4096).mode = some .optimal)) :=
  c6_compress_open 65535 16 4096 (by norm_num) (by norm_num)

lemma Cb_read_data_length (cb : Circular_buffer) (n : Nat) (hwf : Cb_wf cb) :
    (Cb_read_data cb n).1.length = min n (Cb_used_bytes cb) := by
  obtain ⟨hlen, hget, hput⟩ := hwf
  simp only [Cb_read_data, Cb_used_bytes, List.length_take, List.length_drop,
    List.length_append, List.length_nil]
  split_ifs <;>
    (dsimp only at *;
     simp only [List.length_take, List.length_drop, List.length_append,
       List.length_nil] at *;
     omega)

lemma Rd_read_data_length (rdec : Range_decoder) (n : Nat) (hwf : Cb_wf rdec.cb) :
    (Rd_read_data rdec n).1.length = min n (Cb_used_bytes rdec.cb) := by
  simp only [Rd_read_data]
  exact Cb_read_data_length rdec.cb n hwf

/-- C5: with the 20 trailer bytes available, `LZd_try_verify_trailer`
reads exactly 20 bytes and returns 0 iff the stored `data_crc` equals the
CRC of the decoded bytes, the stored `data_size` equals the number of decoded
bytes, and the stored `member_size` equals the number of member bytes
consumed (trailer included); on any mismatch it returns 3, which
`LZ_decompress_read` reports as `LZ_data_error`. -/
theorem c5_trailer_verification (d : LZ_decoder) (hwf : Cb_wf d.rdec.cb)
    (hav : 20 ≤ Rd_available_bytes d.rdec) :
    (Rd_read_data d.rdec 20).1.length = 20 ∧
    ((LZd_try_verify_trailer d).1 = 0 ↔
      (Lt_get_data_crc (Rd_read_data d.rdec 20).1 = LZd_crc d ∧
       Lt_get_data_size (Rd_read_data d.rdec 20).1 = LZd_data_position d ∧
       Lt_get_member_size (Rd_read_data d.rdec 20).1 =
         d.rdec.member_position + 20)) ∧
    ((LZd_try_verify_trailer d).1 ≠ 0 →
      (LZd_try_verify_trailer d).1 = 3 ∧
      LZ_decompress_read_errno (LZd_try_verify_trailer d).1 = .data_error) := by
  have hlen : (Rd_read_data d.rdec 20).1.length = 20 := by
    rw [Rd_read_data_length d.rdec 20 hwf]
    unfold Rd_available_bytes at hav
    omega
  have hmp : (Rd_read_data d.rdec 20).2.member_position =
      d.rdec.member_position + 20 := by
    simp only [Rd_read_data, hlen]
    rw [show ((Cb_read_data d.rdec.cb 20).1.length) = 20 from hlen]
  refine ⟨hlen, ?_⟩
  unfold LZd_try_verify_trailer
  rw [if_neg (by omega)]
  dsimp only
  split_ifs with hcmp
  · obtain ⟨hl, hc, hs, hm⟩ := hcmp
    refine ⟨⟨fun _ => ?_, fun _ => rfl⟩, fun hne => absurd rfl hne⟩
    refine ⟨hc, hs, ?_⟩
    rw [hm, hmp]
  · constructor
    · constructor
      · intro h3; exact absurd h3 (by simp)
      · intro ⟨hc, hs, hm⟩
        exact absurd ⟨hlen, hc, hs, by rw [hmp]; exact hm⟩ hcmp
    · intro _; exact ⟨rfl, rfl⟩

lemma Rd_get_byte_reload (s : Range_decoder) :
    (Rd_get_byte s).2.reload_pending = s.reload_pending ∧
    (Rd_get_byte s).2.at_stream_end = s.at_stream_end := by
  unfold Rd_get_byte
  split_ifs <;> exact ⟨rfl, rfl⟩

lemma reload_fold_pending (l : List Nat) (s0 : Range_decoder) :
    (l.foldl
      (fun s _ =>
        let r := Rd_get_byte s
        { r.2 with code := ((r.2.code <<< 8) ||| r.1) % 2 ^ 32 }) s0).reload_pending
      = s0.reload_pending := by
  induction l generalizing s0 with
  | nil => rfl
  | cons x xs ih =>
    simp only [List.foldl_cons]
    rw [ih]
    exact (Rd_get_byte_reload s0).1

lemma Rd_try_reload_fired (rdec : Range_decoder)
    (h1 : rdec.reload_pending = true) (h2 : 5 ≤ Rd_available_bytes rdec) :
    (Rd_try_reload rdec).1 = true ∧ (Rd_try_reload rdec).2.range = 0xFFFFFFFF ∧
    (Rd_try_reload rdec).2.reload_pending = false := by
  unfold Rd_try_reload
  rw [if_pos (by exact ⟨h1, h2⟩)]
  refine ⟨rfl, rfl, ?_⟩
  dsimp only
  rw [reload_fold_pending]

lemma Rd_try_reload_stuck (rdec : Range_decoder)
    (h : ¬(rdec.reload_pending = true ∧ 5 ≤ Rd_available_bytes rdec)) :
    (Rd_try_reload rdec).1 = !rdec.reload_pending ∧
    (Rd_try_reload rdec).2 = rdec := by
  unfold Rd_try_reload
  rw [if_neg (by intro hc; exact h ⟨hc.1, hc.2⟩)]
  exact ⟨rfl, rfl⟩

/-- C4: in the marker block of `LZd_decode_member` (entered when a normal
match decoded distance `0xFFFFFFFF`): length 2 proceeds to trailer
verification with `verify_trailer_pending` set; length 3 arms a range-coder
reload (the reload stays pending until 5 bytes are available, and when it
fires the loop continues with a reloaded coder) and never produces an error;
any other length returns result 4, reported as `LZ_data_error`. -/
theorem c4_marker_lengths (d : LZ_decoder) (len : Nat) :
    (len = min_match_len →
      LZd_decode_member_marker d len =
        Member_step.ret
          (LZd_try_verify_trailer
            { d with rdec := Rd_normalize d.rdec,
                     verify_trailer_pending := true }).1
          (LZd_try_verify_trailer
            { d with rdec := Rd_normalize d.rdec,
                     verify_trailer_pending := true }).2) ∧
    (len = min_match_len + 1 →
      (∀ c d2, LZd_decode_member_marker d len = .ret c d2 →
        c = 0 ∧ d2.rdec.reload_pending = true) ∧
      (∀ d2, LZd_decode_member_marker d len = .breakLoop d2 →
        d2.rdec.reload_pending = true) ∧
      (∀ d2, LZd_decode_member_marker d len = .contLoop d2 →
        d2.rdec.range = 0xFFFFFFFF ∧ d2.rdec.reload_pending = false)) ∧
    (len ≠ min_match_len → len ≠ min_match_len + 1 →
      LZd_decode_member_marker d len = .ret 4 { d with rdec := Rd_normalize d.rdec } ∧
      LZ_decompress_read_errno 4 = .data_error) := by
  refine ⟨?_, ?_, ?_⟩
  · intro h2
    subst h2
    unfold LZd_decode_member_marker
    rw [if_pos rfl]
  · intro h3
    subst h3
    unfold LZd_decode_member_marker
    rw [if_neg (by decide), if_pos rfl]
    dsimp only
    by_cases hav : 5 ≤ Rd_available_bytes
        { Rd_normalize d.rdec with reload_pending := true }
    · obtain ⟨hf1, hf2, hf3⟩ := Rd_try_reload_fired
        { Rd_normalize d.rdec with reload_pending := true } rfl hav
      rw [hf1, if_pos rfl]
      refine ⟨?_, ?_, ?_⟩
      · intro c d2 h
        cases h
      · intro d2 h
        cases h
      · intro d2 h
        cases h
        exact ⟨hf2, hf3⟩
    · obtain ⟨hs1, hs2⟩ := Rd_try_reload_stuck
        { Rd_normalize d.rdec with reload_pending := true }
        (by intro hc; exact hav hc.2)
      rw [hs1]
      simp only [Bool.not_true, Bool.false_eq_true, if_false]
      rw [hs2]
      split_ifs with hse
      · refine ⟨?_, ?_, ?_⟩
        · intro c d2 h
          cases h
          exact ⟨rfl, rfl⟩
        · intro d2 h
          cases h
        · intro d2 h
          cases h
      · refine ⟨?_, ?_, ?_⟩
        · intro c d2 h
          cases h
        · intro d2 h
          cases h
          rfl
        · intro d2 h
          cases h
  · intro hn2 hn3
    unfold LZd_decode_member_marker
    rw [if_neg hn2, if_neg hn3]
    exact ⟨rfl, rfl⟩

lemma Rd_normalize_range (rdec : Range_decoder) (h : Rd_range_inv rdec) :
    0xFFFFFF < (Rd_normalize rdec).range ∧ (Rd_normalize rdec).range < 2 ^ 32 := by
  obtain ⟨h1, h2⟩ := h
  unfold Rd_normalize
  split_ifs with hc
  · dsimp only
    rw [Nat.shiftLeft_eq]
    rw [Nat.mod_eq_of_lt (by omega)]
    omega
  · exact ⟨by omega, h2⟩

lemma Rd_decode_bit_inv (rdec : Range_decoder) (p : Nat)
    (h : Rd_range_inv rdec) (hp1 : 31 ≤ p) (hp2 : p ≤ 2017) :
    Rd_range_inv (Rd_decode_bit rdec p).1 := by
  obtain ⟨hn1, hn2⟩ := Rd_normalize_range rdec h
  have hlo : 2 ^ 16 ≤ (Rd_normalize rdec).range / 2 ^ 11 * p := by
    have hq : 2 ^ 13 ≤ (Rd_normalize rdec).range / 2 ^ 11 := by omega
    calc (2 : Nat) ^ 16 ≤ 2 ^ 13 * 31 := by norm_num
    _ ≤ (Rd_normalize rdec).range / 2 ^ 11 * p := Nat.mul_le_mul hq hp1
  have hhi : (Rd_normalize rdec).range / 2 ^ 11 * p ≤
      2017 * ((Rd_normalize rdec).range / 2 ^ 11) := by
    rw [Nat.mul_comm 2017]
    exact Nat.mul_le_mul_left _ hp2
  unfold Rd_decode_bit bit_model_total_bits Rd_range_inv
  dsimp only
  simp only [Nat.shiftRight_eq_div_pow]
  split_ifs with hc <;> (try dsimp only) <;> exact ⟨by omega, by omega⟩

lemma Rd_decode_step_inv (rdec : Range_decoder) (sym : Nat)
    (h : Rd_range_inv rdec) :
    0xFFFFFF < (Rd_normalize rdec).range ∧
    Rd_range_inv (Rd_decode_step rdec sym).1 := by
  obtain ⟨hn1, hn2⟩ := Rd_normalize_range rdec h
  refine ⟨hn1, ?_⟩
  unfold Rd_decode_step
  dsimp only
  constructor <;> dsimp only <;> rw [Nat.shiftRight_eq_div_pow] <;> omega

lemma Re_shift_low_range (renc : Range_encoder) :
    (Re_shift_low renc).range = renc.range := by
  unfold Re_shift_low
  split_ifs <;> rfl

lemma Re_encode_bit_inv (renc : Range_encoder) (p : Nat) (b : Bool)
    (h : Re_range_inv renc) (hp1 : 31 ≤ p) (hp2 : p ≤ 2017) :
    Re_range_inv (Re_encode_bit renc p b).1 := by
  obtain ⟨h1, h2⟩ := h
  have hlo : 253952 ≤ renc.range / 2 ^ 11 * p := by
    have hq : 2 ^ 13 ≤ renc.range / 2 ^ 11 := by omega
    calc (253952 : Nat) = 2 ^ 13 * 31 := by norm_num
    _ ≤ renc.range / 2 ^ 11 * p := Nat.mul_le_mul hq hp1
  have hhi : renc.range / 2 ^ 11 * p ≤ 2017 * (renc.range / 2 ^ 11) := by
    rw [Nat.mul_comm 2017]
    exact Nat.mul_le_mul_left _ hp2
  unfold Re_encode_bit bit_model_total_bits Re_range_inv
  dsimp only
  simp only [Nat.shiftRight_eq_div_pow]
  cases b <;>
    simp only [Bool.not_false, Bool.not_true, if_true, if_false] <;>
    split_ifs <;>
    simp only [Re_shift_low_range] <;>
    (try dsimp only at *) <;>
    exact ⟨by omega, by omega⟩

lemma Re_encode_step_inv (renc : Range_encoder) (b : Bool)
    (h : Re_range_inv renc) :
    Re_range_inv (Re_encode_step renc b) := by
  obtain ⟨h1, h2⟩ := h
  unfold Re_encode_step Re_range_inv
  dsimp only
  simp only [Nat.shiftRight_eq_div_pow]
  cases b <;>
    (try simp only [if_true, if_false]) <;>
    split_ifs <;>
    simp only [Re_shift_low_range] <;>
    (try dsimp only at *) <;>
    exact ⟨by omega, by omega⟩

lemma Rd_decode_fold_inv (l : List Nat) (q : Range_decoder × Nat)
    (h : Rd_range_inv q.1) :
    Rd_range_inv (l.foldl (fun p _ => Rd_decode_step p.1 p.2) q).1 := by
  induction l generalizing q with
  | nil => exact h
  | cons x xs ih =>
    simp only [List.foldl_cons]
    exact ih _ (Rd_decode_step_inv q.1 q.2 h).2

lemma Rd_try_reload_inv (rdec : Range_decoder) (h : Rd_range_inv rdec) :
    Rd_range_inv (Rd_try_reload rdec).2 := by
  by_cases hc : rdec.reload_pending = true ∧ 5 ≤ Rd_available_bytes rdec
  · obtain ⟨-, hr, -⟩ := Rd_try_reload_fired rdec hc.1 hc.2
    exact ⟨by rw [hr]; norm_num, by rw [hr]; norm_num⟩
  · rw [(Rd_try_reload_stuck rdec hc).2]
    exact h

/-- C9: the range > `0x00FFFFFF` normalization invariant. The decoder
starts (and reloads) with `range = 0xFFFFFFFF`; from any state satisfying
`Rd_range_inv`, the range entering a decision point (after `Rd_normalize`)
exceeds `0x00FFFFFF`, and `Rd_decode_bit` (with a probability in the
reachable interval `[31, 2017]`) and each fixed-probability `Rd_decode` step
re-establish the invariant. The encoder starts and flushes with
`range = 0xFFFFFFFF`, and `Re_encode_bit` and each `Re_encode` step preserve
`range > 0x00FFFFFF` directly, so the range entering every encoder decision
exceeds `0x00FFFFFF`. -/
theorem c9_range_normalization_invariant :
    (Rd_init.range = 0xFFFFFFFF ∧ Rd_range_inv Rd_init) ∧
    (∀ rdec : Range_decoder, Rd_range_inv rdec →
      Rd_range_inv (Rd_try_reload rdec).2) ∧
    (∀ rdec : Range_decoder, Rd_range_inv rdec →
      0xFFFFFF < (Rd_normalize rdec).range) ∧
    (∀ (rdec : Range_decoder) (p : Nat), Rd_range_inv rdec →
      31 ≤ p → p ≤ 2017 → Rd_range_inv (Rd_decode_bit rdec p).1) ∧
    (∀ (rdec : Range_decoder) (sym : Nat), Rd_range_inv rdec →
      Rd_range_inv (Rd_decode_step rdec sym).1) ∧
    (∀ (rdec : Range_decoder) (nb : Nat), Rd_range_inv rdec →
      Rd_range_inv (Rd_decode rdec nb).1) ∧
    (∀ (renc : Range_encoder) (d : Nat), (Re_reset renc d).range = 0xFFFFFFFF ∧
      Re_range_inv (Re_reset renc d)) ∧
    (∀ renc : Range_encoder, (Re_flush renc).range = 0xFFFFFFFF ∧
      Re_range_inv (Re_flush renc)) ∧
    (∀ (renc : Range_encoder) (p : Nat) (b : Bool), Re_range_inv renc →
      31 ≤ p → p ≤ 2017 → Re_range_inv (Re_encode_bit renc p b).1) ∧
    (∀ (renc : Range_encoder) (b : Bool), Re_range_inv renc →
      Re_range_inv (Re_encode_step renc b)) := by
  refine ⟨⟨rfl, by constructor <;> norm_num [Rd_init]⟩,
    Rd_try_reload_inv, ?_, Rd_decode_bit_inv, ?_, ?_, ?_, ?_,
    Re_encode_bit_inv, Re_encode_step_inv⟩
  · intro rdec h
    exact (Rd_normalize_range rdec h).1
  · intro rdec sym h
    exact (Rd_decode_step_inv rdec sym h).2
  · intro rdec nb h
    exact Rd_decode_fold_inv (List.range nb) (rdec, 0) h
  · intro renc d
    refine ⟨rfl, by constructor <;> norm_num [Re_reset]⟩
  · intro renc
    refine ⟨rfl, by constructor <;> norm_num [Re_flush]⟩

theorem c9_range_normalization_invariant_witness :
    Rd_range_inv (Rd_try_reload rdec_w).2 ∧
    0xFFFFFF < (Rd_normalize rdec_w).range ∧
    Rd_range_inv (Rd_decode_bit rdec_w 1024).1 ∧
    Rd_range_inv (Rd_decode rdec_w 6).1 ∧
    Re_range_inv (Re_encode_bit renc_w 1024 true).1 ∧
    Re_range_inv (Re_encode_step renc_w false) :=
  ⟨c9_range_normalization_invariant.2.1 rdec_w (by constructor <;> decide),
   c9_range_normalization_invariant.2.2.1 rdec_w (by constructor <;> decide),
   c9_range_normalization_invariant.2.2.2.1 rdec_w 1024
     (by constructor <;> decide) (by decide) (by decide),
   c9_range_normalization_invariant.2.2.2.2.2.1 rdec_w 6
     (by constructor <;> decide),
   c9_range_normalization_invariant.2.2.2.2.2.2.2.2.1 renc_w 1024 true
     (by constructor <;> decide) (by decide) (by decide),
   c9_range_normalization_invariant.2.2.2.2.2.2.2.2.2 renc_w false
     (by constructor <;> decide)⟩

lemma real_bits_zero : real_bits 0 = 0 := by
  rw [real_bits]
  simp

lemma real_bits_succ (v : Nat) (h : v ≠ 0) :
    real_bits v = real_bits (v / 2) + 1 := by
  conv_lhs => rw [real_bits]
  rw [dif_neg h]

lemma real_bits_spec (v : Nat) (hv : 1 ≤ v) :
    2 ^ (real_bits v - 1) ≤ v ∧ v < 2 ^ real_bits v := by
  induction v using Nat.strong_induction_on with
  | _ v ih =>
    rw [real_bits_succ v (by omega)]
    by_cases h2 : v / 2 = 0
    · have hv1 : v = 1 := by omega
      subst hv1
      norm_num [real_bits_zero]
    · obtain ⟨ihl, ihr⟩ := ih (v / 2) (by omega) (by omega)
      have hk : 1 ≤ real_bits (v / 2) := by
        rw [real_bits_succ _ h2]; omega
      constructor
      · have : 2 ^ (real_bits (v / 2) + 1 - 1) =
            2 ^ (real_bits (v / 2) - 1) * 2 := by
          rw [Nat.add_sub_cancel, ← pow_succ]
          congr 1
          omega
        rw [this]
        omega
      · have : 2 ^ (real_bits (v / 2) + 1) = 2 ^ real_bits (v / 2) * 2 :=
          pow_succ 2 _
        rw [this]
        omega

lemma Lh_set_fraction_le (sz base fr : Nat) :
    ∀ i, Lh_set_fraction sz base fr i ≤ i := by
  intro i
  induction i with
  | zero => rw [Lh_set_fraction]
  | succ j ih =>
    rw [Lh_set_fraction]
    split_ifs
    · omega
    · omega

lemma Lh_set_fraction_sat (sz base fr : Nat) (hbase : sz ≤ base) :
    ∀ i, sz ≤ base - Lh_set_fraction sz base fr i * fr := by
  intro i
  induction i with
  | zero => rw [Lh_set_fraction]; omega
  | succ j ih =>
    rw [Lh_set_fraction]
    split_ifs with hc
    · exact hc
    · exact ih

lemma Lh_set_fraction_max (sz base fr : Nat) :
    ∀ i j, j ≤ i → sz ≤ base - j * fr → j ≤ Lh_set_fraction sz base fr i := by
  intro i
  induction i with
  | zero => intro j hj _; omega
  | succ m ih =>
    intro j hj hsat
    rw [Lh_set_fraction]
    split_ifs with hc
    · omega
    · have hjm : j ≤ m := by
        rcases Nat.lt_or_ge j (m + 1) with h | h
        · omega
        · have hj1 : j = m + 1 := by omega
          rw [hj1] at hsat
          exact absurd hsat hc
      exact ih j hjm hsat

lemma real_bits_unique (v e : Nat) (hv : 1 ≤ v) (he : 1 ≤ e)
    (hl : 2 ^ (e - 1) ≤ v) (hr : v < 2 ^ e) : real_bits v = e := by
  obtain ⟨sl, sr⟩ := real_bits_spec v hv
  have h1 : 1 ≤ real_bits v := by
    rw [real_bits_succ v (by omega)]; omega
  have ha : real_bits v - 1 < e := by
    by_contra hcon
    push_neg at hcon
    have : 2 ^ e ≤ 2 ^ (real_bits v - 1) :=
      Nat.pow_le_pow_right (by norm_num) hcon
    omega
  have hb : e - 1 < real_bits v := by
    by_contra hcon
    push_neg at hcon
    have : 2 ^ real_bits v ≤ 2 ^ (e - 1) :=
      Nat.pow_le_pow_right (by norm_num) hcon
    omega
  omega

set_option maxHeartbeats 1000000 in
lemma Lh_get_byte_eval (e k : Nat) (he1 : 13 ≤ e) (he2 : e ≤ 29) (hk : k ≤ 7) :
    Lh_get_dictionary_size (e ||| k <<< 5) = 2 ^ e - k * (2 ^ e / 16) := by
  interval_cases e <;> interval_cases k <;> decide

set_option maxHeartbeats 1000000 in
set_option maxRecDepth 4096 in
lemma Lh_get_bounds_all : ∀ c < 256,
    2 ^ (c &&& 31) / 2 < Lh_get_dictionary_size c ∧
    Lh_get_dictionary_size c ≤ 2 ^ (c &&& 31) := by decide

lemma Lh_get_eval (c : Nat) (h : 4096 < 2 ^ (c &&& 31)) :
    Lh_get_dictionary_size c =
      2 ^ (c &&& 31) - 2 ^ (c &&& 31) / 16 * ((c >>> 5) &&& 7) := by
  unfold Lh_get_dictionary_size min_dictionary_size min_dictionary_bits
  rw [if_pos (by norm_num [h])]

lemma Lh_roundup (m : Nat) (h1 : min_dictionary_size ≤ m)
    (h2 : m ≤ max_dictionary_size) :
    m ≤ Lh_get_dictionary_size (Lh_set_dictionary_size_byte m) ∧
    ∀ c, c ≤ 255 → m ≤ Lh_get_dictionary_size c →
      Lh_get_dictionary_size (Lh_set_dictionary_size_byte m) ≤
        Lh_get_dictionary_size c := by
  simp only [min_dictionary_size, min_dictionary_bits, max_dictionary_size,
    max_dictionary_bits] at h1 h2
  norm_num at h1 h2
  by_cases hm : m = 4096
  · subst hm
    have hbyte : Lh_set_dictionary_size_byte 4096 = 12 := by
      unfold Lh_set_dictionary_size_byte min_dictionary_size min_dictionary_bits
      rw [if_neg (by norm_num)]
      exact real_bits_unique 4095 12 (by norm_num) (by norm_num)
        (by norm_num) (by norm_num)
    rw [hbyte]
    refine ⟨by decide, ?_⟩
    intro c hc hmc
    exact le_trans (by decide) hmc
  · have hm1 : 4097 ≤ m := by omega
    obtain ⟨sl, sr⟩ := real_bits_spec (m - 1) (by omega)
    have he1 : 13 ≤ real_bits (m - 1) := by
      by_contra hcon
      push_neg at hcon
      have : 2 ^ real_bits (m - 1) ≤ 2 ^ 12 :=
        Nat.pow_le_pow_right (by norm_num) (by omega)
      omega
    have he2 : real_bits (m - 1) ≤ 29 := by
      by_contra hcon
      push_neg at hcon
      have : 2 ^ 29 ≤ 2 ^ (real_bits (m - 1) - 1) :=
        Nat.pow_le_pow_right (by norm_num) (by omega)
      omega
    have hm2e : m ≤ 2 ^ real_bits (m - 1) := by omega
    have hm1e : 2 ^ (real_bits (m - 1) - 1) < m := by omega
    have hbyte : Lh_set_dictionary_size_byte m =
        real_bits (m - 1) |||
          Lh_set_fraction m (2 ^ real_bits (m - 1))
            (2 ^ real_bits (m - 1) / 16) 7 <<< 5 := by
      unfold Lh_set_dictionary_size_byte min_dictionary_size min_dictionary_bits
      rw [if_pos (by norm_num; omega)]
    have hk7 : Lh_set_fraction m (2 ^ real_bits (m - 1))
        (2 ^ real_bits (m - 1) / 16) 7 ≤ 7 := Lh_set_fraction_le _ _ _ 7
    have hgetset : Lh_get_dictionary_size (Lh_set_dictionary_size_byte m) =
        2 ^ real_bits (m - 1) -
          Lh_set_fraction m (2 ^ real_bits (m - 1))
            (2 ^ real_bits (m - 1) / 16) 7 * (2 ^ real_bits (m - 1) / 16) := by
      rw [hbyte]
      exact Lh_get_byte_eval _ _ he1 he2 hk7
    have hsat := Lh_set_fraction_sat m (2 ^ real_bits (m - 1))
      (2 ^ real_bits (m - 1) / 16) hm2e 7
    refine ⟨by omega, ?_⟩
    intro c hc hmc
    rw [hgetset]
    obtain ⟨hbc1, hbc2⟩ := Lh_get_bounds_all c (by omega)
    have he2b : c &&& 31 ≤ 31 := Nat.and_le_right
    rcases Nat.lt_trichotomy (c &&& 31) (real_bits (m - 1)) with hlt | heq | hgt
    · exfalso
      have : (2 : Nat) ^ (c &&& 31) ≤ 2 ^ (real_bits (m - 1) - 1) :=
        Nat.pow_le_pow_right (by norm_num) (by omega)
      omega
    · have hpow : 4096 < 2 ^ (c &&& 31) := by
        have : (2 : Nat) ^ 13 ≤ 2 ^ (c &&& 31) :=
          Nat.pow_le_pow_right (by norm_num) (by omega)
        omega
      rw [Lh_get_eval c hpow] at hmc ⊢
      rw [heq] at hmc ⊢
      have hk2 : (c >>> 5) &&& 7 ≤ 7 := Nat.and_le_right
      have hmax := Lh_set_fraction_max m (2 ^ real_bits (m - 1))
        (2 ^ real_bits (m - 1) / 16) 7 ((c >>> 5) &&& 7) hk2
        (by rw [Nat.mul_comm]; omega)
      have hmul : Lh_set_fraction m (2 ^ real_bits (m - 1))
          (2 ^ real_bits (m - 1) / 16) 7 * (2 ^ real_bits (m - 1) / 16) ≥
          ((c >>> 5) &&& 7) * (2 ^ real_bits (m - 1) / 16) :=
        Nat.mul_le_mul_right _ hmax
      rw [Nat.mul_comm (2 ^ real_bits (m - 1) / 16)]
      omega
    · have hle : (2 : Nat) ^ real_bits (m - 1) ≤ 2 ^ ((c &&& 31) - 1) :=
        Nat.pow_le_pow_right (by norm_num) (by omega)
      have hsplit : (2 : Nat) ^ (c &&& 31) = 2 ^ ((c &&& 31) - 1) * 2 := by
        rw [← pow_succ]
        congr 1
        omega
      omega

lemma Lh_set_byte_4096 : Lh_set_dictionary_size_byte 4096 = 12 := by
  unfold Lh_set_dictionary_size_byte min_dictionary_size min_dictionary_bits
  rw [if_neg (by norm_num)]
  exact real_bits_unique 4095 12 (by norm_num) (by norm_num)
    (by norm_num) (by norm_num)

/-- C7 (amended): if `LZ_compress_finish` runs before any byte has been
encoded (data position 0, only the 6-byte header emitted) and fewer bytes
were written than the dictionary size, the internal dictionary size becomes
`max(4096, bytes_written)` and the byte patched into the already-emitted
header advertises the smallest header-representable size that is at least
`max(4096, bytes_written)` (not that value itself, which need not be
representable); an empty input advertises exactly a 4 KiB dictionary. -/
theorem c7_shrink_on_finish (e : Encoder_state)
    (hpos : e.mb.pos = 0) (hpar : e.mb.partial_data_pos = 0)
    (hmem : Re_member_position e.renc = 6)
    (hsp : e.mb.stream_pos < e.mb.dictionary_size)
    (hds : isvalid_ds e.mb.dictionary_size)
    (hbuf : 5 < e.renc.cb.buffer.length) :
    (LZ_compress_finish e).mb.dictionary_size =
      max min_dictionary_size e.mb.stream_pos ∧
    (LZ_compress_finish e).renc.header5 =
      Lh_set_dictionary_size_byte (max min_dictionary_size e.mb.stream_pos) ∧
    (LZ_compress_finish e).renc.cb.buffer.getD 5 0 =
      (LZ_compress_finish e).renc.header5 ∧
    max min_dictionary_size e.mb.stream_pos ≤
      Lh_get_dictionary_size (LZ_compress_finish e).renc.header5 ∧
    (∀ c, c ≤ 255 →
      max min_dictionary_size e.mb.stream_pos ≤ Lh_get_dictionary_size c →
      Lh_get_dictionary_size (LZ_compress_finish e).renc.header5 ≤
        Lh_get_dictionary_size c) ∧
    (e.mb.stream_pos = 0 →
      Lh_get_dictionary_size (LZ_compress_finish e).renc.header5 = 4096) := by
  have hvm : isvalid_ds (max min_dictionary_size e.mb.stream_pos) := by
    obtain ⟨hd1, hd2⟩ := hds
    constructor
    · exact le_max_left _ _
    · have hmin : min_dictionary_size ≤ max_dictionary_size := by
        unfold min_dictionary_size max_dictionary_size
          min_dictionary_bits max_dictionary_bits
        norm_num
      simp only [max_le_iff]
      exact ⟨hmin, by omega⟩
  have hcond : Mb_data_position (Mb_finish e.mb) = 0 ∧
      Re_member_position e.renc = 6 := by
    refine ⟨?_, hmem⟩
    unfold Mb_data_position Mb_finish
    simp [hpos, hpar]
  have hadj : (Mb_adjust_dictionary_size (Mb_finish e.mb)).dictionary_size =
      max min_dictionary_size e.mb.stream_pos := by
    unfold Mb_adjust_dictionary_size
    rw [if_pos (by exact hsp)]
    rfl
  have hset : Lh_set_dictionary_size
      (max min_dictionary_size e.mb.stream_pos) =
      some (Lh_set_dictionary_size_byte
        (max min_dictionary_size e.mb.stream_pos)) := by
    unfold Lh_set_dictionary_size
    rw [if_pos hvm]
  unfold LZ_compress_finish
  rw [if_pos hcond]
  dsimp only
  rw [hadj, hset]
  dsimp only [Option.getD_some]
  obtain ⟨hru1, hru2⟩ := Lh_roundup (max min_dictionary_size e.mb.stream_pos)
    hvm.1 hvm.2
  refine ⟨rfl, rfl, ?_, hru1, hru2, ?_⟩
  · rw [List.getD_eq_getElem?_getD, List.getElem?_set_eq_of_lt _ (by omega)]
    rfl
  · intro hsp0
    rw [hsp0]
    have : max min_dictionary_size 0 = 4096 := by
      unfold min_dictionary_size min_dictionary_bits
      norm_num
    rw [this, Lh_set_byte_4096]
    decide

/-- C7 counterexample: with 5000 bytes written and nothing encoded, the
patched header advertises 5120 (the smallest representable size above 5000),
not `max(4096, 5000) = 5000`; and with a 4096-byte dictionary the header
keeps advertising 4096 rather than 5000. -/
theorem c7_counterexample :
    Lh_get_dictionary_size (LZ_compress_finish e_cx).renc.header5 = 5120 ∧
    max 4096 e_cx.mb.stream_pos = 5000 ∧
    (5120 : Nat) ≠ 5000 ∧
    Lh_get_dictionary_size (LZ_compress_finish e_cx2).renc.header5 = 4096 := by
  have h1 : real_bits 4999 = 13 :=
    real_bits_unique 4999 13 (by norm_num) (by norm_num) (by norm_num)
      (by norm_num)
  have h2 : Lh_set_dictionary_size_byte 5000 = 205 := by
    unfold Lh_set_dictionary_size_byte
    rw [if_pos (by norm_num [min_dictionary_size, min_dictionary_bits])]
    norm_num [h1]
    decide
  have h3 : (LZ_compress_finish e_cx).renc.header5 = 205 := by
    unfold LZ_compress_finish
    rw [if_pos (by decide)]
    dsimp only
    have hds : (Mb_adjust_dictionary_size (Mb_finish e_cx.mb)).dictionary_size =
        5000 := by decide
    rw [hds]
    unfold Lh_set_dictionary_size
    rw [if_pos (by decide), h2]
    rfl
  have h4 : (LZ_compress_finish e_cx2).renc.header5 = 12 := by
    unfold LZ_compress_finish
    rw [if_pos (by decide)]
    dsimp only
    have hds : (Mb_adjust_dictionary_size (Mb_finish e_cx2.mb)).dictionary_size =
        4096 := by decide
    rw [hds]
    unfold Lh_set_dictionary_size
    rw [if_pos (by decide), Lh_set_byte_4096]
    rfl
  refine ⟨by rw [h3]; decide, by decide, by decide, by rw [h4]; decide⟩

theorem c7_shrink_on_finish_witness :
    (LZ_compress_finish e_cx).mb.dictionary_size =
      max min_dictionary_size e_cx.mb.stream_pos ∧
    (LZ_compress_finish e_cx).renc.header5 =
      Lh_set_dictionary_size_byte (max min_dictionary_size e_cx.mb.stream_pos) ∧
    (LZ_compress_finish e_cx).renc.cb.buffer.getD 5 0 =
      (LZ_compress_finish e_cx).renc.header5 ∧
    max min_dictionary_size e_cx.mb.stream_pos ≤
      Lh_get_dictionary_size (LZ_compress_finish e_cx).renc.header5 ∧
    (∀ c, c ≤ 255 →
      max min_dictionary_size e_cx.mb.stream_pos ≤ Lh_get_dictionary_size c →
      Lh_get_dictionary_size (LZ_compress_finish e_cx).renc.header5 ≤
        Lh_get_dictionary_size c) ∧
    (e_cx.mb.stream_pos = 0 →
      Lh_get_dictionary_size (LZ_compress_finish e_cx).renc.header5 = 4096) :=
  c7_shrink_on_finish e_cx rfl rfl (by decide) (by decide) (by decide) (by decide)

theorem c4_marker_lengths_witness :
    LZd_decode_member_marker d_w 4 =
      Member_step.ret 4 { d_w with rdec := Rd_normalize d_w.rdec } ∧
    LZ_decompress_read_errno 4 = LZ_Errno.data_error :=
  (c4_marker_lengths d_w 4).2.2 (by decide) (by decide)

theorem c5_trailer_verification_witness :
    (Rd_read_data d_w.rdec 20).1.length = 20 ∧
    ((LZd_try_verify_trailer d_w).1 = 0 ↔
      (Lt_get_data_crc (Rd_read_data d_w.rdec 20).1 = LZd_crc d_w ∧
       Lt_get_data_size (Rd_read_data d_w.rdec 20).1 = LZd_data_position d_w ∧
       Lt_get_member_size (Rd_read_data d_w.rdec 20).1 =
         d_w.rdec.member_position + 20)) ∧
    ((LZd_try_verify_trailer d_w).1 ≠ 0 →
      (LZd_try_verify_trailer d_w).1 = 3 ∧
      LZ_decompress_read_errno (LZd_try_verify_trailer d_w).1 =
        LZ_Errno.data_error) :=
  c5_trailer_verification d_w (by refine ⟨by decide, by decide, by decide⟩)
    (by decide)
